import Mathlib

/-!
Shallow embedding of the `sign4` Go package (AWS Signature Version 4 request
signing and authorization-header parsing), together with proofs about the
claims of its specification.

Go strings are modelled as `List Char` (`Str`); all inputs relevant to the
claims are ASCII, where byte-wise and character-wise processing agree
(UTF-8 byte order also agrees with code-point order).  Machine words in the
hash primitive are modelled as `Nat` reduced modulo `2 ^ 32` explicitly.
-/

set_option autoImplicit false

namespace Sign4

/-- Go strings, modelled as lists of characters. -/
abbrev Str := List Char

/-- Conversion from Lean string literals to the `Str` model. -/
def str (s : String) : Str := s.data

/-- Go `strings.Split(s, sep)` for a one-character separator.
The result is always a non-empty list; `Split("", " ") = [""]`. -/
def splitOnChar (c : Char) : Str → List Str
  | [] => [[]]
  | x :: xs =>
    if x = c then [] :: splitOnChar c xs
    else
      match splitOnChar c xs with
      | [] => [[x]]
      | y :: ys => (x :: y) :: ys

/-- Go `strings.Join(l, sep)` for a one-character separator. -/
def intercalateChar (c : Char) : List Str → Str
  | [] => []
  | [x] => x
  | x :: y :: ys => x ++ c :: intercalateChar c (y :: ys)

/-- Go byte-wise string comparison `a <= b` (lexicographic). -/
def lexLe : Str → Str → Bool
  | [], _ => true
  | _ :: _, [] => false
  | a :: as, b :: bs =>
    if a.toNat < b.toNat then true
    else if b.toNat < a.toNat then false
    else lexLe as bs

/-- Insert a string into a sorted list of strings (ascending). -/
def insertSorted (x : Str) : List Str → List Str
  | [] => [x]
  | y :: ys => if lexLe x y then x :: y :: ys else y :: insertSorted x ys

/-- Go `sort.Strings`: ascending lexicographic sort.  Insertion sort produces
the same list as any sorting algorithm because equal elements are equal
strings. -/
def sortStrings : List Str → List Str
  | [] => []
  | x :: xs => insertSorted x (sortStrings xs)

/-- ASCII lower-casing of one character, as Go `strings.ToLower` does for
ASCII input. -/
def toLowerChar (c : Char) : Char :=
  if 65 ≤ c.toNat ∧ c.toNat ≤ 90 then Char.ofNat (c.toNat + 32) else c

/-- Go `strings.ToLower` (ASCII range). -/
def toLower (s : Str) : Str := s.map toLowerChar

/-- ASCII upper-casing of one character. -/
def toUpperChar (c : Char) : Char :=
  if 97 ≤ c.toNat ∧ c.toNat ≤ 122 then Char.ofNat (c.toNat - 32) else c

/-- Go `textproto.CanonicalMIMEHeaderKey` for header keys made of letters,
digits and hyphens: upper-case the first letter and every letter following
a hyphen, lower-case the rest. -/
def canonKeyAux : Bool → Str → Str
  | _, [] => []
  | upper, c :: rest =>
    let c' := if upper then toUpperChar c else toLowerChar c
    c' :: canonKeyAux (c = '-') rest

/-- Canonical MIME header key, as used by Go's `http.Header` accessors. -/
def canonKey (s : Str) : Str := canonKeyAux true s

/-- Association-list lookup on header keys (Go map indexing). -/
def assocLookup (k : Str) : List (Str × List Str) → Option (List Str)
  | [] => none
  | (k', v) :: rest => if k' = k then some v else assocLookup k rest

/-- Go `http.Header`: a map from canonical keys to lists of values,
modelled as an association list. -/
abbrev Header := List (Str × List Str)

/-- Go `Header.Get`: first value stored under the canonical key, `""` when
absent or empty. -/
def headerGet (h : Header) (k : Str) : Str :=
  match assocLookup (canonKey k) h with
  | some (v :: _) => v
  | _ => []

/-- Go `Header.Set`: replace all values under the canonical key. -/
def headerSet (h : Header) (k : Str) (v : Str) : Header :=
  (h.filter (fun e => e.1 ≠ canonKey k)) ++ [(canonKey k, [v])]

/-- Go `Header.Del`: remove the canonical key. -/
def headerDel (h : Header) (k : Str) : Header :=
  h.filter (fun e => e.1 ≠ canonKey k)

/-- The `signedHeaders map[string]bool` argument: an association list of
header names to booleans.  The empty map is the "sign all headers"
sentinel. -/
abbrev SHMap := List (Str × Bool)

/-- Go map lookup `m[k]` on a `map[string]bool` (missing keys give `false`). -/
def shGet (m : SHMap) (k : Str) : Bool :=
  match m with
  | [] => false
  | (k', b) :: rest => if k' = k then b else shGet rest k

/-- Go `len(m)` on the selection map. -/
def shLen (m : SHMap) : Nat := m.length

/-- A UTC timestamp, as the relevant fields of Go's `time.Time`. -/
structure Time where
  year : Nat
  month : Nat
  day : Nat
  hour : Nat
  minute : Nat
  second : Nat
deriving DecidableEq

/-- The parts of Go's `*http.Request` the package reads: method, decoded URL
path (`r.URL.Path`), parsed query (`r.URL.Query()`), header map, authority
(`r.Host`) and the buffered body bytes. -/
structure Request where
  method : Str
  urlPath : Str
  query : List (Str × List Str)
  header : Header
  host : Str
  body : List Nat
deriving DecidableEq

/-- The Go `Signature` struct (AWS credential metadata). -/
structure Signature where
  AccessKey : Str
  SecretKey : Str
  Region : Str
  Service : Str
deriving DecidableEq

/-! ### Bytes, UTF-8 and hashing primitives

The Go code hashes with `crypto/sha256` and `crypto/hmac`.  Bytes are
modelled as `Nat` values below 256 and 32-bit words as `Nat` values reduced
modulo `2 ^ 32`. -/

/-- UTF-8 encoding of one character (Go `[]byte(string)` encodes UTF-8). -/
def utf8Char (c : Char) : List Nat :=
  let n := c.toNat
  if n < 128 then [n]
  else if n < 2048 then [192 + n / 64, 128 + n % 64]
  else if n < 65536 then [224 + n / 4096, 128 + (n / 64) % 64, 128 + n % 64]
  else [240 + n / 262144, 128 + (n / 4096) % 64, 128 + (n / 64) % 64, 128 + n % 64]

/-- Go `[]byte(s)`: the UTF-8 bytes of a string. -/
def toBytes (s : Str) : List Nat := s.flatMap utf8Char

/-- 32-bit addition. -/
def add32 (a b : Nat) : Nat := (a + b) % 4294967296

/-- 32-bit right rotation (input assumed below `2 ^ 32`). -/
def rotr (n x : Nat) : Nat := ((x >>> n) ||| (x <<< (32 - n))) % 4294967296

/-- SHA-256 message-schedule sigma-0. -/
def ssig0 (x : Nat) : Nat := (rotr 7 x) ^^^ (rotr 18 x) ^^^ (x >>> 3)

/-- SHA-256 message-schedule sigma-1. -/
def ssig1 (x : Nat) : Nat := (rotr 17 x) ^^^ (rotr 19 x) ^^^ (x >>> 10)

/-- SHA-256 round constants. -/
def sha256K : List Nat :=
  [1116352408, 1899447441, 3049323471, 3921009573, 961987163,
   1508970993, 2453635748, 2870763221, 3624381080, 310598401,
   607225278, 1426881987, 1925078388, 2162078206, 2614888103,
   3248222580, 3835390401, 4022224774, 264347078, 604807628,
   770255983, 1249150122, 1555081692, 1996064986, 2554220882,
   2821834349, 2952996808, 3210313671, 3336571891, 3584528711,
   113926993, 338241895, 666307205, 773529912, 1294757372,
   1396182291, 1695183700, 1986661051, 2177026350, 2456956037,
   2730485921, 2820302411, 3259730800, 3345764771, 3516065817,
   3600352804, 4094571909, 275423344, 430227734, 506948616,
   659060556, 883997877, 958139571, 1322822218, 1537002063,
   1747873779, 1955562222, 2024104815, 2227730452, 2361852424,
   2428436474, 2756734187, 3204031479, 3329325298]

/-- SHA-256 initial hash state. -/
def sha256H0 : List Nat :=
  [1779033703, 3144134277, 1013904242, 2773480762, 1359893119,
   2600822924, 528734635, 1541459225]

/-- Extend a 16-word block to the 64-word message schedule. -/
def sha256Schedule (fuel : Nat) (w : List Nat) : List Nat :=
  match fuel with
  | 0 => w
  | fuel + 1 =>
    if w.length ≥ 64 then w
    else
      let i := w.length
      let nw := add32 (add32 (ssig1 (w.getD (i - 2) 0)) (w.getD (i - 7) 0))
                      (add32 (ssig0 (w.getD (i - 15) 0)) (w.getD (i - 16) 0))
      sha256Schedule fuel (w ++ [nw])

/-- One SHA-256 compression round on the 8-word working state. -/
def sha256Round (st : List Nat) (k w : Nat) : List Nat :=
  match st with
  | [a, b, c, d, e, f, g, hh] =>
    let s1 := (rotr 6 e) ^^^ (rotr 11 e) ^^^ (rotr 25 e)
    let ch := (e &&& f) ^^^ ((4294967295 ^^^ e) &&& g)
    let temp1 := add32 (add32 (add32 hh s1) (add32 ch k)) w
    let s0 := (rotr 2 a) ^^^ (rotr 13 a) ^^^ (rotr 22 a)
    let maj := (a &&& b) ^^^ (a &&& c) ^^^ (b &&& c)
    let temp2 := add32 s0 maj
    [add32 temp1 temp2, a, b, c, add32 d temp1, e, f, g]
  | _ => st

/-- Process one 16-word block against the running hash state. -/
def sha256Block (h : List Nat) (block : List Nat) : List Nat :=
  let w := sha256Schedule 48 block
  let st := (sha256K.zip w).foldl (fun st kw => sha256Round st kw.1 kw.2) h
  List.zipWith add32 h st

/-- Big-endian 8-byte encoding of a length in bits. -/
def be8 (n : Nat) : List Nat :=
  [(n >>> 56) &&& 255, (n >>> 48) &&& 255, (n >>> 40) &&& 255, (n >>> 32) &&& 255,
   (n >>> 24) &&& 255, (n >>> 16) &&& 255, (n >>> 8) &&& 255, n &&& 255]

/-- SHA-256 padding: `0x80`, zeros to 56 mod 64, then the bit length. -/
def padMsg (msg : List Nat) : List Nat :=
  let l := msg.length
  msg ++ 0x80 :: List.replicate ((119 - (l % 64)) % 64) 0 ++ be8 (8 * l)

/-- Pack bytes into big-endian 32-bit words. -/
def bytesToWords : List Nat → List Nat
  | b0 :: b1 :: b2 :: b3 :: rest =>
    (b0 * 16777216 + b1 * 65536 + b2 * 256 + b3) :: bytesToWords rest
  | _ => []

/-- Fold the compression function over all 16-word blocks. -/
def sha256Blocks (fuel : Nat) (h : List Nat) (ws : List Nat) : List Nat :=
  match fuel with
  | 0 => h
  | fuel + 1 =>
    match ws with
    | [] => h
    | _ => sha256Blocks fuel (sha256Block h (ws.take 16)) (ws.drop 16)

/-- SHA-256 of a byte sequence (Go `crypto/sha256`). -/
def sha256 (msg : List Nat) : List Nat :=
  let ws := bytesToWords (padMsg msg)
  let h := sha256Blocks ws.length sha256H0 ws
  h.flatMap (fun x => [(x >>> 24) &&& 255, (x >>> 16) &&& 255, (x >>> 8) &&& 255, x &&& 255])

/-- HMAC-SHA256 (Go `hmac.New(sha256.New, key)` then `Write`/`Sum`). -/
def hmacSha256 (key msg : List Nat) : List Nat :=
  let k0 := if key.length > 64 then sha256 key else key
  let k := k0 ++ List.replicate (64 - k0.length) 0
  let ipad := k.map (fun b => b ^^^ 0x36)
  let opad := k.map (fun b => b ^^^ 0x5c)
  sha256 (opad ++ sha256 (ipad ++ msg))

/-- Lower-case hexadecimal digits. -/
def hexDigits : Str := str "0123456789abcdef"

/-- Go `fmt.Sprintf("%x", bytes)`: lower-case hex encoding. -/
def hexEncode (bs : List Nat) : Str :=
  bs.flatMap (fun b => [hexDigits.getD (b / 16 % 16) '0', hexDigits.getD (b % 16) '0'])

/-- Upper-case hexadecimal digit (for percent-encoding). -/
def upperHex (n : Nat) : Char := (str "0123456789ABCDEF").getD (n % 16) '0'

/-- Bytes Go's `url.QueryEscape` leaves unescaped: ASCII alphanumerics and
`-`, `_`, `.`, `~`. -/
def isUnreservedByte (b : Nat) : Bool :=
  (65 ≤ b ∧ b ≤ 90) ∨ (97 ≤ b ∧ b ≤ 122) ∨ (48 ≤ b ∧ b ≤ 57) ∨
    b = 45 ∨ b = 95 ∨ b = 46 ∨ b = 126

/-- Go `url.QueryEscape`: byte-wise percent-encoding of the UTF-8 bytes with
space encoded as `+`. -/
def queryEscape (s : Str) : Str :=
  (toBytes s).flatMap (fun b =>
    if b = 32 then ['+']
    else if isUnreservedByte b then [Char.ofNat b]
    else ['%', upperHex (b / 16), upperHex (b % 16)])

/-- Go `strings.Replace(s, "+", "%20", -1)`. -/
def replacePlus (s : Str) : Str :=
  s.flatMap (fun c => if c = '+' then str "%20" else [c])

/-! ### Timestamps

Formatting and parsing model Go's `time.Format`/`time.Parse` on the two
formats the package uses (`20060102T150405Z`, `20060102`) and RFC 1123, for
UTC timestamps. -/

/-- The decimal digit character for `n % 10`. -/
def digitChar (n : Nat) : Char := Char.ofNat (48 + n % 10)

/-- Decimal digits of a number (fuel-driven recursion over divisions). -/
def natDigitsAux (fuel n : Nat) : Str :=
  match fuel with
  | 0 => []
  | fuel + 1 =>
    if n < 10 then [digitChar n] else natDigitsAux fuel (n / 10) ++ [digitChar (n % 10)]

/-- Decimal representation of a natural number. -/
def natDigits (n : Nat) : Str := natDigitsAux (n + 1) n

/-- Zero-pad a numeral on the left to the given width. -/
def padZero (w : Nat) (s : Str) : Str := List.replicate (w - s.length) '0' ++ s

/-- Two-digit zero-padded numeral. -/
def num2 (n : Nat) : Str := padZero 2 (natDigits n)

/-- Four-digit zero-padded numeral. -/
def num4 (n : Nat) : Str := padZero 4 (natDigits n)

/-- Go `t.UTC().Format(BasicDateFormatShort)`: `YYYYMMDD`. -/
def formatShort (t : Time) : Str := num4 t.year ++ num2 t.month ++ num2 t.day

/-- Go `t.UTC().Format(BasicDateFormat)`: `YYYYMMDDTHHMMSSZ`. -/
def formatBasic (t : Time) : Str :=
  formatShort t ++ 'T' :: (num2 t.hour ++ num2 t.minute ++ num2 t.second) ++ [ 'Z' ]

/-- Is the character an ASCII decimal digit? -/
def isDigitChar (c : Char) : Bool := 48 ≤ c.toNat ∧ c.toNat ≤ 57

/-- Numeric value of an ASCII digit. -/
def digitVal (c : Char) : Nat := c.toNat - 48

/-- Two-digit value. -/
def val2 (a b : Char) : Nat := digitVal a * 10 + digitVal b

/-- Go `time.Parse(BasicDateFormat, s)` for `YYYYMMDDTHHMMSSZ` (UTC). -/
def parseBasicDate (s : Str) : Option Time :=
  match s with
  | [y1, y2, y3, y4, mo1, mo2, d1, d2, tc, h1, h2, mi1, mi2, s1, s2, zc] =>
    if ([y1, y2, y3, y4, mo1, mo2, d1, d2, h1, h2, mi1, mi2, s1, s2]).all isDigitChar
        ∧ tc = 'T' ∧ zc = 'Z' then
      let t : Time :=
        ⟨val2 y1 y2 * 100 + val2 y3 y4, val2 mo1 mo2, val2 d1 d2,
         val2 h1 h2, val2 mi1 mi2, val2 s1 s2⟩
      if 1 ≤ t.month ∧ t.month ≤ 12 ∧ 1 ≤ t.day ∧ t.day ≤ 31
          ∧ t.hour ≤ 23 ∧ t.minute ≤ 59 ∧ t.second ≤ 59 then some t else none
    else none
  | _ => none

/-- Month number from a three-letter English month name. -/
def monthNum (m : Str) : Option Nat :=
  ([str "Jan", str "Feb", str "Mar", str "Apr", str "May", str "Jun",
    str "Jul", str "Aug", str "Sep", str "Oct", str "Nov", str "Dec"].indexOf m) + 1
    |> fun n => if n ≤ 12 then some n else none

/-- The seven three-letter English weekday names. -/
def weekdayNames : List Str :=
  [str "Mon", str "Tue", str "Wed", str "Thu", str "Fri", str "Sat", str "Sun"]

/-- Go `time.Parse(time.RFC1123, s)` for GMT timestamps such as
`Mon, 09 Sep 2011 23:36:00 GMT`. -/
def parseRFC1123 (s : Str) : Option Time :=
  match s with
  | [w1, w2, w3, c1, sp1, d1, d2, sp2, m1, m2, m3, sp3, y1, y2, y3, y4, sp4,
     h1, h2, c2, mi1, mi2, c3, s1, s2, sp5, g1, g2, g3] =>
    if [w1, w2, w3] ∈ weekdayNames ∧ c1 = ',' ∧ sp1 = ' ' ∧ sp2 = ' ' ∧ sp3 = ' '
        ∧ sp4 = ' ' ∧ sp5 = ' ' ∧ c2 = ':' ∧ c3 = ':'
        ∧ [g1, g2, g3] = str "GMT"
        ∧ ([d1, d2, y1, y2, y3, y4, h1, h2, mi1, mi2, s1, s2]).all isDigitChar then
      match monthNum [m1, m2, m3] with
      | some mo =>
        let t : Time :=
          ⟨val2 y1 y2 * 100 + val2 y3 y4, mo, val2 d1 d2,
           val2 h1 h2, val2 mi1 mi2, val2 s1 s2⟩
        if 1 ≤ t.day ∧ t.day ≤ 31 ∧ t.hour ≤ 23 ∧ t.minute ≤ 59 ∧ t.second ≤ 59 then
          some t
        else none
      | none => none
    else none
  | _ => none

/-! ### Canonicalization (`signv4.go`) -/

/-- Go whitespace recognised by `strings.TrimSpace` (ASCII range). -/
def isSpaceGo (c : Char) : Bool :=
  c = ' ' ∨ c = '\t' ∨ c = '\n' ∨ c = Char.ofNat 11 ∨ c = Char.ofNat 12 ∨ c = '\r'

/-- Go `strings.TrimSpace` (ASCII whitespace). -/
def trimSpaceGo (s : Str) : Str :=
  ((s.dropWhile isSpaceGo).reverse.dropWhile isSpaceGo).reverse

/-- The collapsing loop of the package's `trimString`: drop a space that
follows a space while outside double quotes.  `lastChar` is the previously
appended character (initially the zero byte). -/
def trimLoop (inQuote : Bool) (lastChar : Char) : Str → Str
  | [] => []
  | v :: rest =>
    let inQuote' := if v = '"' then !inQuote else inQuote
    if lastChar = ' ' ∧ v = ' ' ∧ !inQuote' then trimLoop inQuote' lastChar rest
    else v :: trimLoop inQuote' v rest

/-- The package's `trimString`: trim outer whitespace, then collapse runs of
spaces outside double quotes. -/
def trimString (s : Str) : Str := trimLoop false (Char.ofNat 0) (trimSpaceGo s)

/-- `CanonicalURI`: normalize the request path segment stack and
percent-encode each kept segment, re-escaping `+` to `%20`. -/
def CanonicalURI (r : Request) : Str :=
  let pattens := splitOnChar '/' r.urlPath
  let uri := pattens.foldl (fun uri v =>
    if v = [] then uri
    else if v = str "." then uri
    else if v = str ".." then uri.dropLast
    else uri ++ [queryEscape v]) []
  replacePlus (str "/" ++ intercalateChar '/' uri)

/-- `CanonicalQueryString`: escape keys and values, list one entry per
value, sort the encoded entries, join with `&`. -/
def CanonicalQueryString (r : Request) : Str :=
  let a := r.query.flatMap (fun kv =>
    let k := queryEscape kv.1
    kv.2.map (fun v =>
      replacePlus (if v = [] then k else k ++ '=' :: queryEscape v)))
  intercalateChar '&' (sortStrings a)

/-- The sorted list of `name:values` lines built by `CanonicalHeaders`,
before joining with newlines. -/
def canonicalHeadersLines (r : Request) (signedHeaders : SHMap) : List Str :=
  let a := r.header.filterMap (fun kv =>
    if shLen signedHeaders = 0 ∨ shGet signedHeaders (toLower kv.1) then
      some (toLower kv.1 ++ ':' :: intercalateChar ',' ((sortStrings kv.2).map trimString))
    else none)
  let a := if headerGet r.header (str "host") = [] ∨ ¬ shGet signedHeaders (str "host") then
      a ++ [str "host:" ++ r.host]
    else a
  sortStrings a

/-- `CanonicalHeaders`: the canonical headers block, newline-joined with a
trailing newline. -/
def CanonicalHeaders (r : Request) (signedHeaders : SHMap) : Str :=
  intercalateChar '\n' (canonicalHeadersLines r signedHeaders) ++ [ '\n' ]

/-- The sorted list of signed header names built by `SignedHeaders`. -/
def signedHeadersList (r : Request) (signedHeaders : SHMap) : List Str :=
  let a := r.header.filterMap (fun kv =>
    if shLen signedHeaders = 0 ∨ shGet signedHeaders (toLower kv.1) then
      some (toLower kv.1)
    else none)
  let a := if headerGet r.header (str "host") = [] ∨ ¬ shGet signedHeaders (str "host") then
      a ++ [str "host"]
    else a
  sortStrings a

/-- `SignedHeaders`: semicolon-joined, sorted, lower-cased header names. -/
def SignedHeaders (r : Request) (signedHeaders : SHMap) : Str :=
  intercalateChar ';' (signedHeadersList r signedHeaders)

/-- `RequestPayload`: the buffered request body (restored for later readers
in Go; a pure read here). -/
def RequestPayload (r : Request) : List Nat := r.body

/-- `HexEncodeSHA256Hash`: lower-case hex of the SHA-256 digest. -/
def HexEncodeSHA256Hash (body : List Nat) : Str := hexEncode (sha256 body)

/-- `CanonicalRequest`: the six newline-joined canonical components. -/
def CanonicalRequest (r : Request) (signedHeaders : SHMap) : Str :=
  r.method ++ '\n' :: CanonicalURI r ++ '\n' :: CanonicalQueryString r ++ '\n' ::
    CanonicalHeaders r signedHeaders ++ '\n' :: SignedHeaders r signedHeaders ++ '\n' ::
    HexEncodeSHA256Hash (RequestPayload r)

/-- `CredentialScope`: `YYYYMMDD/region/service/aws4_request`. -/
def CredentialScope (t : Time) (regionName serviceName : Str) : Str :=
  formatShort t ++ '/' :: regionName ++ '/' :: serviceName ++ '/' :: str "aws4_request"

/-- `StringToSign`: algorithm id, basic timestamp, scope, and the hex
SHA-256 of the canonical request. -/
def StringToSign (canonicalRequest credentialScope : Str) (t : Time) : Str :=
  str "AWS4-HMAC-SHA256" ++ '\n' :: formatBasic t ++ '\n' :: credentialScope ++ '\n' ::
    hexEncode (sha256 (toBytes canonicalRequest))

/-- `GenerateSigningKey`: the keyed-hash cascade over date, region, service
and the terminator, seeded with `"AWS4" + secretKey`. -/
def GenerateSigningKey (secretKey regionName serviceName : Str) (t : Time) : List Nat :=
  let key := toBytes (str "AWS4" ++ secretKey)
  let dateStamp := formatShort t
  [dateStamp, regionName, serviceName, str "aws4_request"].foldl
    (fun key d => hmacSha256 key (toBytes d)) key

/-- `SignStringToSign`: hex of the keyed hash of the string-to-sign. -/
def SignStringToSign (stringToSign : Str) (signingKey : List Nat) : Str :=
  hexEncode (hmacSha256 signingKey (toBytes stringToSign))

/-- `AuthHeaderValue`: the finalized Authorization header value. -/
def AuthHeaderValue (signature accessKey credentialScope signedHeaders : Str) : Str :=
  str "AWS4-HMAC-SHA256 Credential=" ++ accessKey ++ '/' :: credentialScope ++
    str ", SignedHeaders=" ++ signedHeaders ++ str ", Signature=" ++ signature

/-- The timestamp-resolution step of `SignRequest`: an `x-amz-date` header
parsed in basic format, else a `date` header parsed as RFC 1123; `none`
means the code falls back to the current time (mutating the headers). -/
def resolveTime (r : Request) : Option Time :=
  let xd := headerGet r.header (str "x-amz-date")
  if xd ≠ [] then parseBasicDate xd
  else
    let dd := headerGet r.header (str "date")
    if dd ≠ [] then parseRFC1123 dd
    else none

/-- `Signature.SignRequest`: resolve the timestamp (falling back to `now`
and rewriting the date headers when no valid date header exists), run the
canonicalization and signing pipeline, and set the Authorization header.
The Go error paths (hash-write failure) cannot occur in this model. -/
def Signature.SignRequest (s : Signature) (r : Request) (signedHeaders : SHMap)
    (now : Time) : Request :=
  let tr : Time × Request :=
    match resolveTime r with
    | some t => (t, r)
    | none =>
      let h' := headerSet (headerDel r.header (str "date")) (str "x-amz-date") (formatBasic now)
      (now, { r with header := h' })
  let t := tr.1
  let r := tr.2
  let canonicalRequest := CanonicalRequest r signedHeaders
  let credentialScope := CredentialScope t s.Region s.Service
  let stringToSign := StringToSign canonicalRequest credentialScope t
  let key := GenerateSigningKey s.SecretKey s.Region s.Service t
  let signature := SignStringToSign stringToSign key
  let signedHeadersstring := SignedHeaders r signedHeaders
  let authValue := AuthHeaderValue signature s.AccessKey credentialScope signedHeadersstring
  { r with header := headerSet r.header (str "Authorization") authValue }

/-! ### Authorization parsing (`verify.go`) -/

/-- The outcome of running a Go function that may panic. -/
inductive GoVal (α : Type) where
  | panic : GoVal α
  | ret : α → GoVal α
deriving DecidableEq

/-- The four values returned by `GetSignatureFromString`:
`(*Signature, string, map[string]bool, error)`.  The `map[string]bool` of
signed headers (every stored key maps to `true`) is modelled as the list of
its keys in insertion order. -/
structure ParseReturn where
  sig : Option Signature
  raw : Str
  signedHeaders : List Str
  err : Option Str
deriving DecidableEq

/-- `getCredential` (first variant of `verify.go`): parse
`Credential=accessKey/date/region/service/aws4_request`. -/
def getCredential (s : Str) : Option Signature :=
  if s.length < 11 then none
  else if s.take 11 ≠ str "Credential=" then none
  else
    match splitOnChar '/' (s.drop 11) with
    | [p0, _, p2, p3, p4] =>
      if p4 = str "aws4_request" then some ⟨p0, [], p2, p3⟩ else none
    | _ => none

/-- `getSignedHeaders` (first variant): parse `SignedHeaders=a;b;c` into the
set of names. -/
def getSignedHeaders (s : Str) : Option (List Str) :=
  if s.length < 14 then none
  else if s.take 14 ≠ str "SignedHeaders=" then none
  else some (splitOnChar ';' (s.drop 14))

/-- The token-consuming tail of the first-variant `GetSignatureFromString`,
after the length/prefix checks and the space split.  Slicing a token with
`tok[:len(tok)-1]` panics in Go when the token is empty, and `tok[:9]`
panics when the token is shorter than nine bytes; those out-of-range slices
are the `panic` outcomes. -/
def parseTokens1 (authHeader : Str) (pattens : List Str) : GoVal ParseReturn :=
  match pattens with
  | [_, p1, p2, p3] =>
    if p1 = [] then .panic
    else
      match getCredential p1.dropLast with
      | none => .ret ⟨none, [], [], some (str "get authorization header signature failed")⟩
      | some signature =>
        if p2 = [] then .panic
        else
          match getSignedHeaders p2.dropLast with
          | none => .ret ⟨none, [], [], some (str "get authorization header signedHeaders failed")⟩
          | some signedHeaders =>
            if p3.length < 9 then .panic
            else if p3.take 9 ≠ str "Signature" then
              .ret ⟨none, [], signedHeaders, some (str "no signature")⟩
            else .ret ⟨some signature, authHeader, signedHeaders, none⟩
  | _ => .ret ⟨none, [], [], some (str "wrong authorization header size")⟩

/-- `GetSignatureFromString` (first variant of `verify.go`): split the
header on spaces into four tokens, strip the trailing comma from the
credential and signed-headers tokens, and parse the fields. -/
def GetSignatureFromString (authHeader : Str) : GoVal ParseReturn :=
  if authHeader.length < 16 then
    .ret ⟨none, [], [], some (str "get authorization header failed")⟩
  else if authHeader.take 16 ≠ str "AWS4-HMAC-SHA256" then
    .ret ⟨none, [], [], some (str "get aws4-hmac-sha256 failed")⟩
  else parseTokens1 authHeader (splitOnChar ' ' authHeader)

/-- Go `strings.Trim(s, " ")`: strip leading and trailing spaces only. -/
def trimSpacesOnly (s : Str) : Str :=
  ((s.dropWhile (fun c => c = ' ')).reverse.dropWhile (fun c => c = ' ')).reverse

/-- Tokenization of the second-variant `GetSignatureFromString`: split on
spaces, split each piece on commas, trim spaces, and drop empty pieces. -/
def tokenize2 (authHeader : Str) : List Str :=
  (splitOnChar ' ' authHeader).flatMap (fun v =>
    (splitOnChar ',' v).filterMap (fun value =>
      if trimSpacesOnly value = [] then none else some (trimSpacesOnly value)))

/-- `getCredential` (second variant): `strings.HasPrefix` check instead of
a length check, otherwise the same credential-segment parse. -/
def getCredential2 (s : Str) : Option Signature :=
  if s.take 11 ≠ str "Credential=" then none
  else
    match splitOnChar '/' (s.drop 11) with
    | [p0, _, p2, p3, p4] =>
      if p4 = str "aws4_request" then some ⟨p0, [], p2, p3⟩ else none
    | _ => none

/-- `getSignedHeaders` (second variant). -/
def getSignedHeaders2 (s : Str) : Option (List Str) :=
  if s.take 14 ≠ str "SignedHeaders=" then none
  else some (splitOnChar ';' (s.drop 14))

/-- The token-consuming tail of the second-variant parser.  The tokens are
already trimmed, so only the `tok[:9]` slice can panic. -/
def parseTokens2 (authHeader : Str) (pattens : List Str) : GoVal ParseReturn :=
  match pattens with
  | [_, p1, p2, p3] =>
    match getCredential2 p1 with
    | none => .ret ⟨none, [], [], some (str "get authorization header signature failed")⟩
    | some signature =>
      match getSignedHeaders2 p2 with
      | none => .ret ⟨none, [], [], some (str "get authorization header signedHeaders failed")⟩
      | some signedHeaders =>
        if p3.length < 9 then .panic
        else if p3.take 9 ≠ str "Signature" then
          .ret ⟨none, [], signedHeaders, some (str "no signature")⟩
        else .ret ⟨some signature, authHeader, signedHeaders, none⟩
  | _ => .ret ⟨none, [], [], some (str "wrong authorization header size")⟩

/-- `GetSignatureFromString` (second variant of `verify.go`): tolerates the
comma-separated layout by splitting on spaces and commas and trimming. -/
def GetSignatureFromString2 (authHeader : Str) : GoVal ParseReturn :=
  if authHeader.length < 16 then
    .ret ⟨none, [], [], some (str "get authorization header failed")⟩
  else if authHeader.take 16 ≠ str "AWS4-HMAC-SHA256" then
    .ret ⟨none, [], [], some (str "get aws4-hmac-sha256 failed")⟩
  else parseTokens2 authHeader (tokenize2 authHeader)

/-- The parsed fields of a parse outcome, erasing the raw-header echo: the
credential, the signed-header set and the error. -/
def fieldsOf : GoVal ParseReturn → GoVal (Option Signature × List Str × Option Str)
  | .panic => .panic
  | .ret r => .ret (r.sig, r.signedHeaders, r.err)

/-- Percent-decoding of a URL path, as Go's `url.Parse` performs on the raw
request path before storing `r.URL.Path` (path mode: `+` is untouched). -/
def decodePath : Str → Option Str
  | [] => some []
  | '%' :: a :: b :: rest =>
    match (str "0123456789ABCDEFabcdef").indexOf a, (str "0123456789ABCDEFabcdef").indexOf b with
    | ia, ib =>
      if ia < 22 ∧ ib < 22 then
        let hv := fun i => if i < 16 then i else i - 6
        (decodePath rest).map (fun t => Char.ofNat (16 * hv ia + hv ib) :: t)
      else none
  | '%' :: _ => none
  | c :: rest => (decodePath rest).map (fun t => c :: t)

/-! ### Specification-side reformulations and claim-level predicates -/

/-- The segment stack of the spec's `CanonicalURI` description: drop empty
and `.` segments, pop one kept segment per `..` (clamped at the root),
keeping segments raw. -/
def canonicalSegments (pattens : List Str) : List Str :=
  pattens.foldl (fun uri v =>
    if v = [] then uri
    else if v = str "." then uri
    else if v = str ".." then uri.dropLast
    else uri ++ [v]) []

/-- The spec's wording of `CanonicalURI`: normalize the raw segment stack,
then percent-encode each remaining segment (re-escaping `+` to `%20`), then
rejoin with `/` and a leading `/`. -/
def canonicalURISpec (p : Str) : Str :=
  str "/" ++
    intercalateChar '/' ((canonicalSegments (splitOnChar '/' p)).map
      (fun v => replacePlus (queryEscape v)))

/-- The space-separated tokens of an authorization header value, as the
first-variant parser produces them. -/
def authTokens (s : Str) : List Str := splitOnChar ' ' s

/-- The credential segment of an authorization header value: the second
token with its trailing delimiter and the `Credential=` label removed, as
consumed by `getCredential`. -/
def credentialSegment (s : Str) : Str := ((authTokens s).getD 1 []).dropLast.drop 11

/-- The malformed-input classes of claim C4: wrong token count, wrong
algorithm identifier, a credential segment that does not split into five
`/`-parts ending in `aws4_request`, or a third token lacking the
`SignedHeaders=` prefix. -/
def malformedAuth (s : Str) : Prop :=
  (authTokens s).length ≠ 4 ∨
  s.take 16 ≠ str "AWS4-HMAC-SHA256" ∨
  (splitOnChar '/' (credentialSegment s)).length ≠ 5 ∨
  (splitOnChar '/' (credentialSegment s)).getD 4 [] ≠ str "aws4_request" ∨
  ((authTokens s).getD 2 []).take 14 ≠ str "SignedHeaders="

/-- Set the Authorization header on a request: the final mutation performed
by `SignRequest`. -/
def setAuth (r : Request) (v : Str) : Request :=
  { r with header := headerSet r.header (str "Authorization") v }

/-- The Authorization value `SignRequest` computes for a request at a
resolved timestamp: the signing pipeline 4.1–4.4 applied to the request. -/
def signAuthValue (s : Signature) (r : Request) (sel : SHMap) (t : Time) : Str :=
  AuthHeaderValue
    (SignStringToSign
      (StringToSign (CanonicalRequest r sel) (CredentialScope t s.Region s.Service) t)
      (GenerateSigningKey s.SecretKey s.Region s.Service t))
    s.AccessKey (CredentialScope t s.Region s.Service) (SignedHeaders r sel)

/-- The parse call returned an error and no partial result: a `ret` outcome
with a non-`nil` error, a `nil` credential and an empty raw header echo. -/
def errOnly : GoVal ParseReturn → Prop
  | .panic => False
  | .ret r => r.err.isSome = true ∧ r.sig = none ∧ r.raw = []

/-! ### Basic lemmas about the string primitives -/

theorem splitOnChar_not_mem {c : Char} {a : Str} (h : c ∉ a) : splitOnChar c a = [a] := by
  induction a with
  | nil => rfl
  | cons x xs ih =>
    simp only [List.mem_cons, not_or] at h
    have hx : ¬ (x = c) := fun e => h.1 e.symm
    simp [splitOnChar, hx, ih h.2]

theorem splitOnChar_append {c : Char} {a b : Str} (h : c ∉ a) :
    splitOnChar c (a ++ c :: b) = a :: splitOnChar c b := by
  induction a with
  | nil => simp [splitOnChar]
  | cons x xs ih =>
    simp only [List.mem_cons, not_or] at h
    have hx : ¬ (x = c) := fun e => h.1 e.symm
    simp [splitOnChar, hx, ih h.2]

theorem splitOnChar_ne_nil {c : Char} {a : Str} : splitOnChar c a ≠ [] := by
  cases a with
  | nil => simp [splitOnChar]
  | cons x xs =>
    simp only [splitOnChar]
    split
    · simp
    · split <;> simp_all

theorem splitOnChar_intercalate {c : Char} {l : List Str} (hl : l ≠ [])
    (h : ∀ x ∈ l, c ∉ x) : splitOnChar c (intercalateChar c l) = l := by
  induction l with
  | nil => exact absurd rfl hl
  | cons x xs ih =>
    cases xs with
    | nil => exact splitOnChar_not_mem (h x (by simp))
    | cons y ys =>
      have hx : c ∉ x := h x (by simp)
      simp only [intercalateChar, splitOnChar_append hx]
      rw [ih (by simp) (fun z hz => h z (List.mem_cons_of_mem x hz))]

theorem mem_intercalateChar {c d : Char} {l : List Str}
    (h : d ∈ intercalateChar c l) : d = c ∨ ∃ x ∈ l, d ∈ x := by
  induction l with
  | nil => simp [intercalateChar] at h
  | cons x xs ih =>
    cases xs with
    | nil =>
      simp only [intercalateChar] at h
      exact Or.inr ⟨x, by simp, h⟩
    | cons y ys =>
      simp only [intercalateChar, List.mem_append, List.mem_cons] at h
      rcases h with h | h | h
      · exact Or.inr ⟨x, by simp, h⟩
      · exact Or.inl h
      · rcases ih h with h' | ⟨z, hz, hdz⟩
        · exact Or.inl h'
        · exact Or.inr ⟨z, List.mem_cons_of_mem x hz, hdz⟩

theorem not_mem_intercalateChar {c d : Char} {l : List Str} (hdc : d ≠ c)
    (h : ∀ x ∈ l, d ∉ x) : d ∉ intercalateChar c l := by
  intro hmem
  rcases mem_intercalateChar hmem with h' | ⟨x, hx, hdx⟩
  · exact hdc h'
  · exact h x hx hdx

theorem insertSorted_perm (x : Str) (l : List Str) : (insertSorted x l).Perm (x :: l) := by
  induction l with
  | nil => exact List.Perm.refl _
  | cons y ys ih =>
    simp only [insertSorted]
    split
    · exact List.Perm.refl _
    · exact (List.Perm.cons y ih).trans (List.Perm.swap x y ys)

theorem sortStrings_perm (l : List Str) : (sortStrings l).Perm l := by
  induction l with
  | nil => exact List.Perm.refl _
  | cons x xs ih =>
    exact (insertSorted_perm x (sortStrings xs)).trans (List.Perm.cons x ih)

theorem mem_sortStrings {x : Str} {l : List Str} : x ∈ sortStrings l ↔ x ∈ l :=
  (sortStrings_perm l).mem_iff

theorem dropLast_map {α β : Type} (f : α → β) (l : List α) :
    (l.map f).dropLast = l.dropLast.map f := by
  induction l with
  | nil => rfl
  | cons x xs ih =>
    cases xs with
    | nil => rfl
    | cons y ys =>
      simp only [List.map_cons, List.dropLast_cons₂]
      rw [← List.map_cons, ih]

theorem filterMap_filter_of_none {α β : Type} (f : α → Option β) (p : α → Bool)
    (l : List α) (h : ∀ x ∈ l, p x = false → f x = none) :
    (l.filter p).filterMap f = l.filterMap f := by
  induction l with
  | nil => rfl
  | cons x xs ih =>
    have ih' := ih (fun z hz => h z (List.mem_cons_of_mem x hz))
    by_cases hp : p x = true
    · rw [List.filter_cons_of_pos hp]
      simp only [List.filterMap_cons, ih']
    · have hp' : p x = false := by simpa using hp
      rw [List.filter_cons_of_neg (by simp [hp'])]
      simp only [List.filterMap_cons, h x (by simp) hp', ih']

/-! ### Digit lemmas for the date formats -/

theorem isDigitChar_digitChar (n : Nat) : isDigitChar (digitChar n) = true := by
  have h : n % 10 < 10 := Nat.mod_lt _ (by omega)
  unfold digitChar
  set m := n % 10 with hm
  interval_cases m <;> decide

theorem natDigitsAux_digits {fuel n : Nat} : ∀ c ∈ natDigitsAux fuel n, isDigitChar c = true := by
  induction fuel generalizing n with
  | zero => intro c hc; simp [natDigitsAux] at hc
  | succ fuel ih =>
    intro c hc
    simp only [natDigitsAux] at hc
    split at hc
    · simp only [List.mem_singleton] at hc
      exact hc ▸ isDigitChar_digitChar n
    · rcases List.mem_append.mp hc with h | h
      · exact ih c h
      · simp only [List.mem_singleton] at h
        subst h
        exact isDigitChar_digitChar _

theorem padZero_digits {w : Nat} {s : Str} (hs : ∀ c ∈ s, isDigitChar c = true) :
    ∀ c ∈ padZero w s, isDigitChar c = true := by
  intro c hc
  rcases List.mem_append.mp hc with h | h
  · have := List.eq_of_mem_replicate h
    subst this; decide
  · exact hs c h

theorem formatShort_digits {t : Time} : ∀ c ∈ formatShort t, isDigitChar c = true := by
  intro c hc
  simp only [formatShort, num4, num2, List.mem_append] at hc
  rcases hc with (h | h) | h <;>
    exact padZero_digits (fun d hd => natDigitsAux_digits d hd) c h

theorem digit_not_mem_formatShort {t : Time} {d : Char} (hd : isDigitChar d = false) :
    d ∉ formatShort t := by
  intro hm
  rw [formatShort_digits d hm] at hd
  cases hd

/-! ### Header map lemmas -/

theorem assocLookup_filter_append (k : Str) (h : Header) (v : List Str) :
    assocLookup k ((h.filter (fun e => e.1 ≠ k)) ++ [(k, v)]) = some v := by
  induction h with
  | nil => simp [assocLookup]
  | cons e es ih =>
    by_cases he : e.1 = k
    · rw [List.filter_cons_of_neg (by simp [he])]
      exact ih
    · rw [List.filter_cons_of_pos (by simp [he])]
      simpa [assocLookup, he] using ih

theorem assocLookup_filter_append_ne {k k' : Str} (hne : k ≠ k') (h : Header) (v : List Str) :
    assocLookup k ((h.filter (fun e => e.1 ≠ k')) ++ [(k', v)]) = assocLookup k h := by
  induction h with
  | nil =>
    have hk : ¬ (k' = k) := fun e => hne e.symm
    simp [assocLookup, hk]
  | cons e es ih =>
    by_cases he : e.1 = k'
    · rw [List.filter_cons_of_neg (by simp [he])]
      have hek : ¬ (e.1 = k) := fun e' => hne (e' ▸ he)
      simpa [assocLookup, hek] using ih
    · rw [List.filter_cons_of_pos (by simp [he])]
      by_cases hek : e.1 = k
      · simp [assocLookup, hek]
      · simpa [assocLookup, hek] using ih

theorem headerGet_set_self (h : Header) (k : Str) (v : Str) :
    headerGet (headerSet h k v) k = v := by
  unfold headerGet headerSet
  rw [assocLookup_filter_append]

theorem headerGet_set_ne {k k' : Str} (hne : canonKey k ≠ canonKey k') (h : Header) (v : Str) :
    headerGet (headerSet h k' v) k = headerGet h k := by
  unfold headerGet headerSet
  rw [assocLookup_filter_append_ne hne]

/-! ### Lemmas about `replacePlus` and the canonical URI fold -/

theorem replacePlus_cons (d : Char) (t : Str) :
    replacePlus (d :: t) = (if d = '+' then str "%20" else [d]) ++ replacePlus t := rfl

theorem replacePlus_append (a b : Str) :
    replacePlus (a ++ b) = replacePlus a ++ replacePlus b := by
  simp [replacePlus]

theorem replacePlus_intercalate {c : Char} (hc : ¬ (c = '+')) (l : List Str) :
    replacePlus (intercalateChar c l) = intercalateChar c (l.map replacePlus) := by
  induction l with
  | nil => rfl
  | cons x xs ih =>
    cases xs with
    | nil => rfl
    | cons y ys =>
      simp only [intercalateChar, List.map_cons]
      rw [replacePlus_append, replacePlus_cons, if_neg hc]
      simp only [List.cons_append, List.nil_append] at ih ⊢
      rw [ih]
      cases h : (y :: ys).map replacePlus with
      | nil => simp at h
      | cons z zs => simp [intercalateChar, ← h]

theorem canonicalFold_map (l : List Str) : ∀ acc : List Str,
    l.foldl (fun uri v =>
      if v = [] then uri
      else if v = str "." then uri
      else if v = str ".." then uri.dropLast
      else uri ++ [queryEscape v]) (acc.map queryEscape) =
    (l.foldl (fun uri v =>
      if v = [] then uri
      else if v = str "." then uri
      else if v = str ".." then uri.dropLast
      else uri ++ [v]) acc).map queryEscape := by
  induction l with
  | nil => intro acc; simp
  | cons x xs ih =>
    intro acc
    simp only [List.foldl_cons]
    by_cases h1 : x = []
    · subst h1
      simpa using ih acc
    · by_cases h2 : x = str "."
      · subst h2
        simpa [h1] using ih acc
      · by_cases h3 : x = str ".."
        · subst h3
          simp only [if_neg h1, if_neg h2, if_pos rfl]
          rw [dropLast_map]
          exact ih acc.dropLast
        · simp only [if_neg h1, if_neg h2, if_neg h3]
          have hstep : (acc.map queryEscape) ++ [queryEscape x] = (acc ++ [x]).map queryEscape := by
            simp
          rw [hstep]
          exact ih (acc ++ [x])

/-! ### Claim theorems -/

/-- C6: `CanonicalURI` splits the path on `/`, drops empty and `.` segments,
pops one kept segment per `..` (clamped at the root), percent-encodes each
remaining segment with `+` re-escaped to `%20`, and rejoins with a leading
`/`; the empty path canonicalizes to `/` and `/a/../b` to `/b`. -/
theorem canonicalURI_matches_spec :
    (∀ r : Request, CanonicalURI r = canonicalURISpec r.urlPath) ∧
    CanonicalURI ⟨str "GET", str "", [], [], [], []⟩ = str "/" ∧
    CanonicalURI ⟨str "GET", str "/a/../b", [], [], [], []⟩ = str "/b" := by
  refine ⟨fun r => ?_, by decide, by decide⟩
  have h1 := canonicalFold_map (splitOnChar '/' r.urlPath) []
  simp only [List.map_nil] at h1
  simp only [CanonicalURI, canonicalURISpec, canonicalSegments, h1, replacePlus_append,
    replacePlus_intercalate (show ¬ ('/' = '+') by decide), List.map_map]
  rfl

/-- C7: the request whose raw path is `/%20/foo` (stored percent-decoded by
the URL parser, as Go's `url.Parse` does) canonicalizes back to `/%20/foo`:
the already-encoded space stays `%20` and is not double-encoded. -/
theorem canonicalURI_preserves_encoded_space :
    decodePath (str "/%20/foo") = some (str "/ /foo") ∧
    CanonicalURI ⟨str "GET", (decodePath (str "/%20/foo")).getD [], [], [],
      str "host.foo.com", []⟩ = str "/%20/foo" := by
  constructor
  · decide
  · decide

/-- C2 (refuting the no-unchecked-failure claim): both parser variants abort
with an out-of-range string slice — modelled as the `panic` outcome — on
well-delimited inputs whose fourth token is shorter than nine bytes, and the
first variant also panics when a token is empty. -/
theorem getSignatureFromString_panics :
    GetSignatureFromString
      (str "AWS4-HMAC-SHA256 Credential=a/b/c/d/aws4_request, SignedHeaders=h, Sig") =
      GoVal.panic ∧
    GetSignatureFromString (str "AWS4-HMAC-SHA256  a b") = GoVal.panic ∧
    GetSignatureFromString2
      (str "AWS4-HMAC-SHA256 Credential=a/b/c/d/aws4_request,SignedHeaders=h,Sig") =
      GoVal.panic := by
  refine ⟨by decide, by decide, by decide⟩

set_option maxRecDepth 100000 in
set_option maxHeartbeats 16000000 in
/-- C5: `GenerateSigningKey` is the four-stage HMAC-SHA256 cascade seeded
with the bytes of `"AWS4" + secretKey`, keyed stage by stage over the date
`YYYYMMDD`, the region, the service and the literal `aws4_request`, each
stage's output becoming the next stage's key; on the documented test vector
(secret `wJal...EKEY`, region `us-east-1`, service `host`, date 2011-09-09)
it hex-encodes to `e220a8ee...d7a9596`. -/
theorem generateSigningKey_cascade :
    (∀ (secretKey regionName serviceName : Str) (t : Time),
      GenerateSigningKey secretKey regionName serviceName t =
        hmacSha256 (hmacSha256 (hmacSha256 (hmacSha256
          (toBytes (str "AWS4" ++ secretKey)) (toBytes (formatShort t)))
          (toBytes regionName)) (toBytes serviceName)) (toBytes (str "aws4_request"))) ∧
    hexEncode (GenerateSigningKey (str "wJalrXUtnFEMI/K7MDENG+bPxRfiCYEXAMPLEKEY")
      (str "us-east-1") (str "host") ⟨2011, 9, 9, 23, 36, 0⟩) =
      str "e220a8ee99f059729066fd06efe5c0f949d6aa8973360d189dd0e0eddd7a9596" := by
  constructor
  · intro secretKey regionName serviceName t
    simp only [GenerateSigningKey, List.foldl_cons, List.foldl_nil]
  · decide

/-! ### Lemmas for the malformed-input claim -/

theorem take_dropLast_eq {n : Nat} {lit p : Str} (hn : lit.length = n)
    (h : p.dropLast.take n = lit) : p.take n = lit := by
  rw [List.dropLast_eq_take, List.take_take] at h
  rcases Nat.le_total n (p.length - 1) with hle | hge
  · rwa [Nat.min_eq_left hle] at h
  · rw [Nat.min_eq_right hge] at h
    have hlen := congrArg List.length h
    rw [List.length_take, hn, Nat.min_eq_left (Nat.sub_le p.length 1)] at hlen
    rw [← hlen]
    exact h

theorem getCredential_some {c : Str} {sig : Signature} (h : getCredential c = some sig) :
    (splitOnChar '/' (c.drop 11)).length = 5 ∧
    (splitOnChar '/' (c.drop 11)).getD 4 [] = str "aws4_request" := by
  unfold getCredential at h
  split at h
  · exact absurd h (by simp)
  · split at h
    · exact absurd h (by simp)
    · split at h
      next p0 p1 p2 p3 p4 heq =>
        rw [heq]
        split at h
        next hp4 => exact ⟨by simp, by simp [hp4]⟩
        next => exact absurd h (by simp)
      next => exact absurd h (by simp)

theorem getSignedHeaders_some {c : Str} {hs : List Str} (h : getSignedHeaders c = some hs) :
    c.take 14 = str "SignedHeaders=" := by
  unfold getSignedHeaders at h
  split at h
  · exact absurd h (by simp)
  · split at h
    next ht => exact absurd h (by simp)
    next ht => exact not_not.mp ht

theorem parseTokens1_err {s p0 p1 p2 p3 : Str} (hp1 : p1 ≠ []) (hp2 : p2 ≠ [])
    (h : getCredential p1.dropLast = none ∨ getSignedHeaders p2.dropLast = none) :
    errOnly (parseTokens1 s [p0, p1, p2, p3]) := by
  simp only [parseTokens1, if_neg hp1]
  rcases h with h | h
  · simp only [h]
    exact ⟨rfl, rfl, rfl⟩
  · cases hget : getCredential p1.dropLast with
    | none =>
      simp only [hget]
      exact ⟨rfl, rfl, rfl⟩
    | some sig =>
      simp only [hget, if_neg hp2, h]
      exact ⟨rfl, rfl, rfl⟩

/-- C4 (amended): every authorization string in the malformed classes of the
claim — wrong token count, wrong algorithm identifier, credential segment
not splitting into five `/`-parts ending in `aws4_request`, or third token
lacking the `SignedHeaders=` prefix — makes `GetSignatureFromString` return
an error with a `nil` credential and empty raw header, provided the second
and third space-separated tokens are non-empty (on empty tokens the code
instead aborts with an out-of-range slice, see the counterexample). -/
theorem getSignatureFromString_rejects_malformed (s : Str)
    (hcl : (authTokens s).length = 4 →
      (authTokens s).getD 1 [] ≠ [] ∧ (authTokens s).getD 2 [] ≠ [])
    (hm : malformedAuth s) :
    errOnly (GetSignatureFromString s) := by
  by_cases h16 : s.length < 16
  · simp only [GetSignatureFromString, if_pos h16]
    exact ⟨rfl, rfl, rfl⟩
  · by_cases halgo : s.take 16 = str "AWS4-HMAC-SHA256"
    · have hred : GetSignatureFromString s = parseTokens1 s (splitOnChar ' ' s) := by
        simp [GetSignatureFromString, h16, halgo]
      rw [hred]
      unfold malformedAuth at hm
      unfold authTokens at hm hcl
      unfold credentialSegment authTokens at hm
      rcases hp : splitOnChar ' ' s with _ | ⟨p0, _ | ⟨p1, _ | ⟨p2, _ | ⟨p3, _ | ⟨p4, rest⟩⟩⟩⟩⟩ <;>
        rw [hp] at hm hcl
      · exact absurd hp splitOnChar_ne_nil
      · exact ⟨rfl, rfl, rfl⟩
      · exact ⟨rfl, rfl, rfl⟩
      · exact ⟨rfl, rfl, rfl⟩
      · obtain ⟨hp1, hp2⟩ := hcl (by simp)
        simp only [List.getD_cons_succ, List.getD_cons_zero] at hm hp1 hp2
        rcases hm with h4 | ha | hc5 | hc4 | hsh
        · simp at h4
        · exact absurd halgo ha
        · refine parseTokens1_err hp1 hp2 (Or.inl ?_)
          cases hg : getCredential p1.dropLast with
          | none => rfl
          | some sig => exact absurd (getCredential_some hg).1 hc5
        · refine parseTokens1_err hp1 hp2 (Or.inl ?_)
          cases hg : getCredential p1.dropLast with
          | none => rfl
          | some sig => exact absurd (getCredential_some hg).2 hc4
        · refine parseTokens1_err hp1 hp2 (Or.inr ?_)
          cases hg : getSignedHeaders p2.dropLast with
          | none => rfl
          | some hs =>
            exact absurd (take_dropLast_eq (by decide) (getSignedHeaders_some hg)) hsh
      · exact ⟨rfl, rfl, rfl⟩
    · simp only [GetSignatureFromString, if_neg h16, if_pos halgo]
      exact ⟨rfl, rfl, rfl⟩

/-- C4 counterexample: the string `AWS4-HMAC-SHA256  a b` (two spaces, so
the second token is empty) lies in the claim's malformed classes — its
credential segment splits into one part, not five — yet the parser does not
return an error: it aborts with an out-of-range slice (`panic`). -/
theorem malformedAuth_panic :
    malformedAuth (str "AWS4-HMAC-SHA256  a b") ∧
    GetSignatureFromString (str "AWS4-HMAC-SHA256  a b") = GoVal.panic := by
  constructor
  · unfold malformedAuth authTokens credentialSegment
    decide
  · decide

/-- Witness for C4 at the concrete malformed input
`AWS4-HMAC-SHA256 Credential=a/b/c, SignedHeaders=h, Signature=x` (its
credential segment has three parts). -/
theorem getSignatureFromString_rejects_malformed_witness :
    malformedAuth
      (str "AWS4-HMAC-SHA256 Credential=a/b/c, SignedHeaders=h, Signature=x") ∧
    errOnly (GetSignatureFromString
      (str "AWS4-HMAC-SHA256 Credential=a/b/c, SignedHeaders=h, Signature=x")) := by
  have hm : malformedAuth
      (str "AWS4-HMAC-SHA256 Credential=a/b/c, SignedHeaders=h, Signature=x") := by
    unfold malformedAuth authTokens credentialSegment
    decide
  exact ⟨hm, getSignatureFromString_rejects_malformed _ (by decide) hm⟩


/-! ### Lemmas for the round-trip claim -/

theorem not_mem_credentialScope {d : Char} {region service : Str} (t : Time)
    (hdigit : isDigitChar d = false) (hsl : ¬ d = '/')
    (hr : d ∉ region) (hs : d ∉ service) (haws : d ∉ str "aws4_request") :
    d ∉ CredentialScope t region service := by
  unfold CredentialScope
  intro hmem
  have hf : d ∉ formatShort t := digit_not_mem_formatShort hdigit
  simp only [List.mem_append, List.mem_cons] at hmem
  tauto

theorem getCredential_concat {accessKey region service : Str} (t : Time)
    (hak : '/' ∉ accessKey) (hr : '/' ∉ region) (hs : '/' ∉ service) :
    getCredential (str "Credential=" ++ (accessKey ++ '/' :: CredentialScope t region service))
      = some ⟨accessKey, [], region, service⟩ := by
  have h11 : (str "Credential=").length = 11 := by decide
  unfold getCredential
  split_ifs with h1 h2
  · exfalso
    simp only [List.length_append, h11] at h1
    omega
  · exact absurd (List.take_left' h11) h2
  · rw [List.drop_left' h11]
    unfold CredentialScope
    simp only [List.append_assoc, List.cons_append]
    rw [splitOnChar_append hak,
      splitOnChar_append (digit_not_mem_formatShort (by decide)),
      splitOnChar_append hr, splitOnChar_append hs,
      splitOnChar_not_mem (by decide : '/' ∉ str "aws4_request")]
    rfl

theorem getSignedHeaders_concat {names : List Str} (hn : names ≠ [])
    (h : ∀ x ∈ names, ';' ∉ x) :
    getSignedHeaders (str "SignedHeaders=" ++ intercalateChar ';' names) = some names := by
  have h14 : (str "SignedHeaders=").length = 14 := by decide
  unfold getSignedHeaders
  split_ifs with h1 h2
  · exfalso
    simp only [List.length_append, h14] at h1
    omega
  · exact absurd (List.take_left' h14) h2
  · rw [List.drop_left' h14, splitOnChar_intercalate hn h]

/-- C1 counterexample: an access key containing a space (here `a b`) breaks
the space tokenization, so `GetSignatureFromString` rejects the value that
`AuthHeaderValue` produced instead of recovering the fields — the
unconditional round-trip claim is false. -/
theorem authHeaderValue_roundTrip_counterexample :
    GetSignatureFromString
      (AuthHeaderValue (str "f309") (str "a b")
        (CredentialScope ⟨2011, 9, 9, 23, 36, 0⟩ (str "us-east-1") (str "host"))
        (str "host")) =
    GoVal.ret ⟨none, [], [], some (str "wrong authorization header size")⟩ := by
  decide

/-- C1 (amended): `GetSignatureFromString` recovers the access key, region,
service and the exact signed-header list (hence the same set) from any value
`AuthHeaderValue` builds out of a `CredentialScope`, provided the access
key, region and service contain no space and no `/`, the signature contains
no space, and the signed-header list is non-empty with names free of spaces
and `;`. -/
theorem authHeaderValue_roundTrip
    (t : Time) (accessKey region service sig : Str) (names : List Str)
    (hak1 : ' ' ∉ accessKey) (hak2 : '/' ∉ accessKey)
    (hr1 : ' ' ∉ region) (hr2 : '/' ∉ region)
    (hs1 : ' ' ∉ service) (hs2 : '/' ∉ service)
    (hsig : ' ' ∉ sig) (hn : names ≠ [])
    (hnames : ∀ x ∈ names, ' ' ∉ x ∧ ';' ∉ x) :
    GetSignatureFromString
      (AuthHeaderValue sig accessKey (CredentialScope t region service)
        (intercalateChar ';' names)) =
    GoVal.ret ⟨some ⟨accessKey, [], region, service⟩,
      AuthHeaderValue sig accessKey (CredentialScope t region service)
        (intercalateChar ';' names),
      names, none⟩ := by
  set scope := CredentialScope t region service with hscope
  set T2 : Str := (str "Credential=" ++ (accessKey ++ '/' :: scope)) ++ [','] with hT2
  set T3 : Str := (str "SignedHeaders=" ++ intercalateChar ';' names) ++ [','] with hT3
  set T4 : Str := str "Signature=" ++ sig with hT4
  have hshape : AuthHeaderValue sig accessKey scope (intercalateChar ';' names) =
      str "AWS4-HMAC-SHA256" ++ ' ' :: (T2 ++ ' ' :: (T3 ++ ' ' :: T4)) := by
    rw [hT2, hT3, hT4]
    unfold AuthHeaderValue
    rw [show str "AWS4-HMAC-SHA256 Credential=" =
        str "AWS4-HMAC-SHA256" ++ ' ' :: str "Credential=" from by decide,
      show str ", SignedHeaders=" = ',' :: ' ' :: str "SignedHeaders=" from by decide,
      show str ", Signature=" = ',' :: ' ' :: str "Signature=" from by decide]
    simp
  have hspace_scope : ' ' ∉ scope := by
    rw [hscope]
    exact not_mem_credentialScope t (by decide) (by decide) hr1 hs1 (by decide)
  have hsT2 : ' ' ∉ T2 := by
    rw [hT2]
    intro hmem
    have h1 : ' ' ∉ str "Credential=" := by decide
    simp only [List.mem_append, List.mem_cons, List.not_mem_nil] at hmem
    tauto
  have hsT3 : ' ' ∉ T3 := by
    rw [hT3]
    intro hmem
    have h1 : ' ' ∉ str "SignedHeaders=" := by decide
    have h2 : ' ' ∉ intercalateChar ';' names :=
      not_mem_intercalateChar (by decide) (fun x hx => (hnames x hx).1)
    simp only [List.mem_append, List.mem_cons, List.not_mem_nil] at hmem
    tauto
  have hsT4 : ' ' ∉ T4 := by
    rw [hT4]
    intro hmem
    have h1 : ' ' ∉ str "Signature=" := by decide
    simp only [List.mem_append] at hmem
    tauto
  have hsplit : splitOnChar ' '
      (str "AWS4-HMAC-SHA256" ++ ' ' :: (T2 ++ ' ' :: (T3 ++ ' ' :: T4))) =
      [str "AWS4-HMAC-SHA256", T2, T3, T4] := by
    rw [splitOnChar_append (by decide), splitOnChar_append hsT2,
      splitOnChar_append hsT3, splitOnChar_not_mem hsT4]
  have hlen16 : (str "AWS4-HMAC-SHA256").length = 16 := by decide
  have hbig : ¬((str "AWS4-HMAC-SHA256" ++ ' ' :: (T2 ++ ' ' :: (T3 ++ ' ' :: T4))).length
      < 16) := by
    simp only [List.length_append, List.length_cons, hlen16]
    omega
  have hT2ne : T2 ≠ [] := by
    rw [hT2]
    intro hcontra
    have hl := congrArg List.length hcontra
    simp only [List.length_append, List.length_cons, List.length_nil] at hl
    omega
  have hT3ne : T3 ≠ [] := by
    rw [hT3]
    intro hcontra
    have hl := congrArg List.length hcontra
    simp only [List.length_append, List.length_cons, List.length_nil] at hl
    omega
  have hT2drop : T2.dropLast = str "Credential=" ++ (accessKey ++ '/' :: scope) := by
    rw [hT2, List.dropLast_concat]
  have hT3drop : T3.dropLast = str "SignedHeaders=" ++ intercalateChar ';' names := by
    rw [hT3, List.dropLast_concat]
  have hT4len : ¬(T4.length < 9) := by
    rw [hT4]
    simp only [List.length_append, show (str "Signature=").length = 10 from by decide]
    omega
  have hT4take : T4.take 9 = str "Signature" := by
    rw [hT4, List.take_append_of_le_length
      (by rw [show (str "Signature=").length = 10 from by decide]; omega)]
    decide
  rw [hshape, GetSignatureFromString, if_neg hbig, List.take_left' hlen16,
    if_neg (not_not_intro rfl), hsplit]
  simp only [parseTokens1, if_neg hT2ne, hT2drop,
    getCredential_concat t hak2 hr2 hs2, if_neg hT3ne, hT3drop,
    getSignedHeaders_concat hn (fun x hx => (hnames x hx).2),
    if_neg hT4len, if_neg (not_not_intro hT4take), hshape]

/-- Witness for C1 at the documented concrete fields (access key
`AKIDEXAMPLE`, region `us-east-1`, service `host`, headers `date;host`). -/
theorem authHeaderValue_roundTrip_witness :
    GetSignatureFromString
      (AuthHeaderValue (str "f309") (str "AKIDEXAMPLE")
        (CredentialScope ⟨2011, 9, 9, 23, 36, 0⟩ (str "us-east-1") (str "host"))
        (intercalateChar ';' [str "date", str "host"])) =
    GoVal.ret ⟨some ⟨str "AKIDEXAMPLE", [], str "us-east-1", str "host"⟩,
      AuthHeaderValue (str "f309") (str "AKIDEXAMPLE")
        (CredentialScope ⟨2011, 9, 9, 23, 36, 0⟩ (str "us-east-1") (str "host"))
        (intercalateChar ';' [str "date", str "host"]),
      [str "date", str "host"], none⟩ :=
  authHeaderValue_roundTrip ⟨2011, 9, 9, 23, 36, 0⟩ (str "AKIDEXAMPLE")
    (str "us-east-1") (str "host") (str "f309") [str "date", str "host"]
    (by decide) (by decide) (by decide) (by decide) (by decide) (by decide)
    (by decide) (by decide) (by decide)

/-! ### Lemmas for the two token layouts of the second parser variant -/

theorem dropWhile_eq_self_of {p : Char → Bool} {s : Str} (h : ∀ x ∈ s, p x = false) :
    s.dropWhile p = s := by
  cases s with
  | nil => rfl
  | cons x xs =>
    rw [List.dropWhile_cons, if_neg (by simp [h x (by simp)])]

theorem trimSpacesOnly_eq_self {s : Str} (h : ' ' ∉ s) : trimSpacesOnly s = s := by
  unfold trimSpacesOnly
  have hp : ∀ x ∈ s, decide (x = ' ') = false :=
    fun x hx => decide_eq_false (fun e => h (e ▸ hx))
  have hp' : ∀ x ∈ s.reverse, decide (x = ' ') = false :=
    fun x hx => hp x (List.mem_reverse.mp hx)
  rw [dropWhile_eq_self_of hp, dropWhile_eq_self_of hp', List.reverse_reverse]

theorem tokenize2_piece_of_no_comma (v : Str) (hv : v ≠ []) (hs : ' ' ∉ v) (hc : ',' ∉ v) :
    (splitOnChar ',' v).filterMap (fun value =>
      if trimSpacesOnly value = [] then none else some (trimSpacesOnly value)) = [v] := by
  rw [splitOnChar_not_mem hc]
  simp only [List.filterMap_cons, trimSpacesOnly_eq_self hs, if_neg hv, List.filterMap_nil]

theorem tokenize2_piece_comma (v : Str) (hv : v ≠ []) (hs : ' ' ∉ v) (hc : ',' ∉ v) :
    (splitOnChar ',' (v ++ [','])).filterMap (fun value =>
      if trimSpacesOnly value = [] then none else some (trimSpacesOnly value)) = [v] := by
  rw [show v ++ [','] = v ++ ',' :: [] from rfl, splitOnChar_append hc]
  simp only [List.filterMap_cons, trimSpacesOnly_eq_self hs, if_neg hv]
  rfl

theorem tokenize2_space_layout {x y z : Str}
    (hx : x ≠ []) (hy : y ≠ []) (hz : z ≠ [])
    (hxs : ' ' ∉ x) (hxc : ',' ∉ x) (hys : ' ' ∉ y) (hyc : ',' ∉ y)
    (hzs : ' ' ∉ z) (hzc : ',' ∉ z) :
    tokenize2 (str "AWS4-HMAC-SHA256" ++ ' ' ::
        ((x ++ [',']) ++ ' ' :: ((y ++ [',']) ++ ' ' :: z))) =
      [str "AWS4-HMAC-SHA256", x, y, z] := by
  have hxsp : ' ' ∉ x ++ [','] := by
    intro hm
    rcases List.mem_append.mp hm with hm | hm
    · exact hxs hm
    · simp at hm
  have hysp : ' ' ∉ y ++ [','] := by
    intro hm
    rcases List.mem_append.mp hm with hm | hm
    · exact hys hm
    · simp at hm
  unfold tokenize2
  rw [splitOnChar_append (by decide), splitOnChar_append hxsp, splitOnChar_append hysp,
    splitOnChar_not_mem hzs]
  simp only [List.flatMap_cons, List.flatMap_nil,
    tokenize2_piece_of_no_comma (str "AWS4-HMAC-SHA256") (by decide) (by decide) (by decide),
    tokenize2_piece_comma x hx hxs hxc, tokenize2_piece_comma y hy hys hyc,
    tokenize2_piece_of_no_comma z hz hzs hzc, List.append_nil]
  rfl

theorem tokenize2_comma_layout {x y z : Str}
    (hx : x ≠ []) (hy : y ≠ []) (hz : z ≠ [])
    (hxs : ' ' ∉ x) (hxc : ',' ∉ x) (hys : ' ' ∉ y) (hyc : ',' ∉ y)
    (hzs : ' ' ∉ z) (hzc : ',' ∉ z) :
    tokenize2 (str "AWS4-HMAC-SHA256" ++ ' ' :: (x ++ ',' :: (y ++ ',' :: z))) =
      [str "AWS4-HMAC-SHA256", x, y, z] := by
  have hrest : ' ' ∉ x ++ ',' :: (y ++ ',' :: z) := by
    intro hm
    simp only [List.mem_append, List.mem_cons] at hm
    tauto
  unfold tokenize2
  rw [splitOnChar_append (by decide), splitOnChar_not_mem hrest]
  simp only [List.flatMap_cons, List.flatMap_nil,
    tokenize2_piece_of_no_comma (str "AWS4-HMAC-SHA256") (by decide) (by decide) (by decide)]
  rw [splitOnChar_append hxc, splitOnChar_append hyc, splitOnChar_not_mem hzc]
  simp only [List.filterMap_cons, trimSpacesOnly_eq_self hxs, if_neg hx,
    trimSpacesOnly_eq_self hys, if_neg hy, trimSpacesOnly_eq_self hzs, if_neg hz,
    List.filterMap_nil]
  rfl

theorem fieldsOf_parseTokens2 (r1 r2 : Str) (p : List Str) :
    fieldsOf (parseTokens2 r1 p) = fieldsOf (parseTokens2 r2 p) := by
  rcases p with _ | ⟨p0, _ | ⟨p1, _ | ⟨p2, _ | ⟨p3, _ | ⟨p4, rest⟩⟩⟩⟩⟩ <;>
    try rfl
  simp only [parseTokens2]
  cases hg : getCredential2 p1 with
  | none => rfl
  | some sig =>
    cases hs : getSignedHeaders2 p2 with
    | none => rfl
    | some hdrs =>
      split_ifs <;> rfl

set_option maxRecDepth 40000 in
/-- C8: the second-variant parser accepts both the space-separated layout
`ALGO tok, tok, tok` and the comma-separated layout `ALGO tok,tok,tok`
(trimming surrounding spaces from tokens), parsing both layouts of the same
four fields to the same parsed fields (the raw-header component of the
return value echoes each input verbatim, so the comparison erases it); every
input whose tokenization has a count other than four is rejected with an
error; the two documented example headers (one per layout) parse
successfully. -/
theorem getSignatureFromString2_layouts :
    (∀ x y z : Str, x ≠ [] → y ≠ [] → z ≠ [] →
      ' ' ∉ x → ',' ∉ x → ' ' ∉ y → ',' ∉ y → ' ' ∉ z → ',' ∉ z →
      fieldsOf (GetSignatureFromString2
        (str "AWS4-HMAC-SHA256 " ++ x ++ str ", " ++ y ++ str ", " ++ z)) =
      fieldsOf (GetSignatureFromString2
        (str "AWS4-HMAC-SHA256 " ++ x ++ str "," ++ y ++ str "," ++ z))) ∧
    (∀ s : Str, (tokenize2 s).length ≠ 4 → errOnly (GetSignatureFromString2 s)) ∧
    GetSignatureFromString2
      (str "AWS4-HMAC-SHA256 Credential=AKIDEXAMPLE/20110909/us-east-1/host/aws4_request, SignedHeaders=content-type;date;host, Signature=5a15b22cf462f047318703b92e6f4f38884e4a7ab7b1d6426ca46a8bd1c26cbc") =
      GoVal.ret ⟨some ⟨str "AKIDEXAMPLE", [], str "us-east-1", str "host"⟩,
        str "AWS4-HMAC-SHA256 Credential=AKIDEXAMPLE/20110909/us-east-1/host/aws4_request, SignedHeaders=content-type;date;host, Signature=5a15b22cf462f047318703b92e6f4f38884e4a7ab7b1d6426ca46a8bd1c26cbc",
        [str "content-type", str "date", str "host"], none⟩ ∧
    GetSignatureFromString2
      (str "AWS4-HMAC-SHA256 Credential=devops/20180312/hz/dnsapi/aws4_request,SignedHeaders=Content-Length;Content-type;host;x-amz-date,Signature=8a31f6aaa5026579bb2cf20962768190fdd0b4846ed5c48842fa61936245e9c5") =
      GoVal.ret ⟨some ⟨str "devops", [], str "hz", str "dnsapi"⟩,
        str "AWS4-HMAC-SHA256 Credential=devops/20180312/hz/dnsapi/aws4_request,SignedHeaders=Content-Length;Content-type;host;x-amz-date,Signature=8a31f6aaa5026579bb2cf20962768190fdd0b4846ed5c48842fa61936245e9c5",
        [str "Content-Length", str "Content-type", str "host", str "x-amz-date"], none⟩ := by
  have h16 : (str "AWS4-HMAC-SHA256").length = 16 := by decide
  have hred : ∀ rest : Str,
      GetSignatureFromString2 (str "AWS4-HMAC-SHA256" ++ ' ' :: rest) =
      parseTokens2 (str "AWS4-HMAC-SHA256" ++ ' ' :: rest)
        (tokenize2 (str "AWS4-HMAC-SHA256" ++ ' ' :: rest)) := by
    intro rest
    unfold GetSignatureFromString2
    rw [if_neg (by simp only [List.length_append, List.length_cons, h16]; omega),
      List.take_left' h16, if_neg (not_not_intro rfl)]
  refine ⟨?_, ?_, by decide, by decide⟩
  · intro x y z hx hy hz hxs hxc hys hyc hzs hzc
    have hsp : str "AWS4-HMAC-SHA256 " ++ x ++ str ", " ++ y ++ str ", " ++ z =
        str "AWS4-HMAC-SHA256" ++ ' ' :: ((x ++ [',']) ++ ' ' :: ((y ++ [',']) ++ ' ' :: z)) := by
      rw [show str "AWS4-HMAC-SHA256 " = str "AWS4-HMAC-SHA256" ++ [' '] from by decide,
        show str ", " = [','] ++ [' '] from by decide]
      simp
    have hcm : str "AWS4-HMAC-SHA256 " ++ x ++ str "," ++ y ++ str "," ++ z =
        str "AWS4-HMAC-SHA256" ++ ' ' :: (x ++ ',' :: (y ++ ',' :: z)) := by
      rw [show str "AWS4-HMAC-SHA256 " = str "AWS4-HMAC-SHA256" ++ [' '] from by decide,
        show str "," = [','] from by decide]
      simp
    rw [hsp, hcm, hred, hred,
      tokenize2_space_layout hx hy hz hxs hxc hys hyc hzs hzc,
      tokenize2_comma_layout hx hy hz hxs hxc hys hyc hzs hzc]
    exact fieldsOf_parseTokens2 _ _ _
  · intro s hlen4
    unfold GetSignatureFromString2
    by_cases h16s : s.length < 16
    · rw [if_pos h16s]
      exact ⟨rfl, rfl, rfl⟩
    · rw [if_neg h16s]
      by_cases halgo : s.take 16 = str "AWS4-HMAC-SHA256"
      · rw [if_neg (not_not_intro halgo)]
        rcases hp : tokenize2 s with _ | ⟨p0, _ | ⟨p1, _ | ⟨p2, _ | ⟨p3, _ | ⟨p4, rest⟩⟩⟩⟩⟩ <;>
          rw [hp] at hlen4 <;>
          first
          | exact ⟨rfl, rfl, rfl⟩
          | (exfalso; exact hlen4 (by simp))
      · rw [if_pos halgo]
        exact ⟨rfl, rfl, rfl⟩

/-- Witness for C8: the two layouts of the concrete fields
`Credential=AKIDEXAMPLE/20110909/us-east-1/host/aws4_request`,
`SignedHeaders=date;host`, `Signature=abc` parse to the same fields, and a
three-token input is rejected. -/
theorem getSignatureFromString2_layouts_witness :
    fieldsOf (GetSignatureFromString2
      (str "AWS4-HMAC-SHA256 " ++ str "Credential=AKIDEXAMPLE/20110909/us-east-1/host/aws4_request" ++
        str ", " ++ str "SignedHeaders=date;host" ++ str ", " ++ str "Signature=abc")) =
    fieldsOf (GetSignatureFromString2
      (str "AWS4-HMAC-SHA256 " ++ str "Credential=AKIDEXAMPLE/20110909/us-east-1/host/aws4_request" ++
        str "," ++ str "SignedHeaders=date;host" ++ str "," ++ str "Signature=abc")) ∧
    errOnly (GetSignatureFromString2 (str "AWS4-HMAC-SHA256 a b")) :=
  ⟨getSignatureFromString2_layouts.1
      (str "Credential=AKIDEXAMPLE/20110909/us-east-1/host/aws4_request")
      (str "SignedHeaders=date;host") (str "Signature=abc")
      (by decide) (by decide) (by decide) (by decide) (by decide) (by decide)
      (by decide) (by decide) (by decide),
    getSignatureFromString2_layouts.2.1 (str "AWS4-HMAC-SHA256 a b") (by decide)⟩

/-! ### Lemmas for the host-header invariants -/

theorem assocLookup_mem {k : Str} {h : Header} {v : List Str}
    (hl : assocLookup k h = some v) : (k, v) ∈ h := by
  induction h with
  | nil => cases hl
  | cons e es ih =>
    unfold assocLookup at hl
    split_ifs at hl with he
    · cases hl
      rw [← he]
      exact List.mem_cons_self _ _
    · exact List.mem_cons_of_mem _ (ih hl)

theorem filterMap_if_true {α β : Type} (f : α → β) (p : α → Prop) [DecidablePred p]
    (l : List α) (h : ∀ x ∈ l, p x) :
    (l.filterMap (fun x => if p x then some (f x) else none)) = l.map f := by
  induction l with
  | nil => rfl
  | cons x xs ih =>
    rw [List.filterMap_cons, if_pos (h x (by simp)), List.map_cons,
      ih (fun z hz => h z (List.mem_cons_of_mem x hz))]

theorem toLowerChar_colon {c : Char} (h : toLowerChar c = ':') : c = ':' := by
  unfold toLowerChar at h
  split_ifs at h with hr
  · exfalso
    have h1 := hr.1
    have h2 := hr.2
    generalize c.toNat = m at h1 h2 h
    interval_cases m <;> exact absurd h (by decide)
  · exact h

theorem not_colon_toLower {k : Str} (h : ':' ∉ k) : ':' ∉ toLower k := by
  intro hm
  rcases List.mem_map.mp hm with ⟨c, hcm, hce⟩
  exact h (toLowerChar_colon hce ▸ hcm)

theorem take_colon_eq (pre : Str) : ∀ lk J : Str, ':' ∉ lk → ':' ∉ pre →
    (lk ++ ':' :: J).take (pre.length + 1) = pre ++ [':'] → lk = pre := by
  induction pre with
  | nil =>
    intro lk J hlk _ h
    cases lk with
    | nil => rfl
    | cons a tl =>
      simp only [List.length_nil, List.cons_append, List.take_succ_cons, List.take_zero,
        List.nil_append, List.cons.injEq, and_true] at h
      exact absurd (h ▸ List.mem_cons_self a tl) hlk
  | cons p ps ih =>
    intro lk J hlk hpre h
    cases lk with
    | nil =>
      simp only [List.nil_append, List.length_cons, List.take_succ_cons, List.cons_append,
        List.cons.injEq] at h
      apply absurd _ hpre
      rw [← h.1]
      exact List.mem_cons_self ':' ps
    | cons a tl =>
      simp only [List.cons_append, List.length_cons, List.take_succ_cons,
        List.cons.injEq] at h
      have htl : ':' ∉ tl := fun hm => hlk (List.mem_cons_of_mem a hm)
      have hps : ':' ∉ ps := fun hm => hpre (List.mem_cons_of_mem p hm)
      rw [h.1, ih tl J htl hps h.2]

theorem take5_hostColon {lk J : Str} (hl : ':' ∉ lk) :
    (lk ++ ':' :: J).take 5 = str "host:" ↔ lk = str "host" := by
  constructor
  · intro h
    refine take_colon_eq (str "host") lk J hl (by decide) ?_
    rw [show (str "host").length + 1 = 5 from by decide,
      show (str "host" : Str) ++ [':'] = str "host:" from rfl]
    exact h
  · intro h
    subst h
    rw [show (str "host" : Str) ++ ':' :: J = str "host:" ++ J from by
        rw [show (str "host:" : Str) = str "host" ++ [':'] from rfl]
        simp]
    exact List.take_left' (by decide)

/-- C9: for every request and selection, the signed-header name list
produced by `SignedHeaders` contains `host`, and the canonical headers block
produced by `CanonicalHeaders` contains a line starting with `host:`, even
when the request's explicit header map has no host entry (the request
authority then supplies the value). -/
theorem host_always_signed (r : Request) (sel : SHMap) :
    str "host" ∈ signedHeadersList r sel ∧
    ∃ l ∈ canonicalHeadersLines r sel, l.take 5 = str "host:" := by
  by_cases hcond : headerGet r.header (str "host") = [] ∨ ¬ shGet sel (str "host")
  · constructor
    · simp only [signedHeadersList]
      rw [if_pos hcond, mem_sortStrings]
      simp
    · simp only [canonicalHeadersLines]
      rw [if_pos hcond]
      refine ⟨str "host:" ++ r.host, ?_, List.take_left' (by decide)⟩
      rw [mem_sortStrings]
      simp
  · push_neg at hcond
    obtain ⟨hget, hsel⟩ := hcond
    have hex : ∃ v vs, assocLookup (str "Host") r.header = some (v :: vs) := by
      unfold headerGet at hget
      rw [show canonKey (str "host") = str "Host" from by decide] at hget
      rcases hl : assocLookup (str "Host") r.header with _ | ⟨_ | ⟨v, vs⟩⟩ <;>
        rw [hl] at hget
      · exact absurd rfl hget
      · exact absurd rfl hget
      · exact ⟨_, _, rfl⟩
    obtain ⟨v, vs, hlook⟩ := hex
    have hmem : ((str "Host", v :: vs) : Str × List Str) ∈ r.header := assocLookup_mem hlook
    have hguard : shLen sel = 0 ∨ shGet sel (toLower (str "Host")) = true := by
      right
      rw [show toLower (str "Host") = str "host" from by decide]
      exact hsel
    constructor
    · simp only [signedHeadersList]
      rw [if_neg (by push_neg; exact ⟨hget, hsel⟩), mem_sortStrings]
      refine List.mem_filterMap.mpr ⟨(str "Host", v :: vs), hmem, ?_⟩
      show (if shLen sel = 0 ∨ shGet sel (toLower (str "Host")) then
        some (toLower (str "Host")) else none) = some (str "host")
      rw [if_pos hguard, show toLower (str "Host") = str "host" from by decide]
    · simp only [canonicalHeadersLines]
      rw [if_neg (by push_neg; exact ⟨hget, hsel⟩)]
      refine ⟨toLower (str "Host") ++ ':' ::
        intercalateChar ',' ((sortStrings (v :: vs)).map trimString), ?_, ?_⟩
      · rw [mem_sortStrings]
        refine List.mem_filterMap.mpr ⟨(str "Host", v :: vs), hmem, ?_⟩
        show (if shLen sel = 0 ∨ shGet sel (toLower (str "Host")) then
          some (toLower (str "Host") ++ ':' ::
            intercalateChar ',' ((sortStrings (v :: vs)).map trimString))
          else none) = some _
        rw [if_pos hguard]
      · rw [show toLower (str "Host") = str "host" from by decide]
        exact (take5_hostColon (by decide)).mpr rfl

/-- C10: when the selection is the empty-set sentinel and the request's
header map holds exactly one host-named entry (and header keys contain no
colon), the `SignedHeaders` name list emits `host` twice and the
`CanonicalHeaders` block emits two `host:`-prefixed lines — one from the
explicit header entry, one from the request authority, because the
authority-sourced line is appended whenever the selection does not map
`host` to true, which is always the case for the empty sentinel. -/
theorem host_duplicated_with_sentinel (r : Request)
    (hhost : r.header.countP (fun e => decide (toLower e.1 = str "host")) = 1)
    (hcolon : ∀ e ∈ r.header, ':' ∉ e.1) :
    (signedHeadersList r []).countP (fun x => decide (x = str "host")) = 2 ∧
    (canonicalHeadersLines r []).countP (fun l => decide (l.take 5 = str "host:")) = 2 := by
  have hcond : headerGet r.header (str "host") = [] ∨ ¬ shGet [] (str "host") := by
    right
    simp [shGet]
  constructor
  · simp only [signedHeadersList]
    rw [if_pos hcond, (sortStrings_perm _).countP_eq, List.countP_append,
      filterMap_if_true (fun kv => toLower kv.1)
        (fun kv => shLen ([] : SHMap) = 0 ∨ shGet [] (toLower kv.1)) r.header
        (fun x _ => Or.inl rfl),
      List.countP_map]
    rw [show ((fun x => decide (x = str "host")) ∘ fun kv : Str × List Str => toLower kv.1) =
      (fun e : Str × List Str => decide (toLower e.1 = str "host")) from rfl, hhost]
    rfl
  · simp only [canonicalHeadersLines]
    rw [if_pos hcond, (sortStrings_perm _).countP_eq, List.countP_append,
      filterMap_if_true
        (fun kv => toLower kv.1 ++ ':' :: intercalateChar ','
          ((sortStrings kv.2).map trimString))
        (fun kv => shLen ([] : SHMap) = 0 ∨ shGet [] (toLower kv.1)) r.header
        (fun x _ => Or.inl rfl),
      List.countP_map]
    have hpt : ∀ e ∈ r.header,
        ((fun l => decide (l.take 5 = str "host:")) ∘ fun kv : Str × List Str =>
          toLower kv.1 ++ ':' :: intercalateChar ',' ((sortStrings kv.2).map trimString)) e
          = true ↔
        (fun e : Str × List Str => decide (toLower e.1 = str "host")) e = true := by
      intro e he
      simp only [Function.comp_apply, decide_eq_true_eq]
      exact take5_hostColon (not_colon_toLower (hcolon e he))
    rw [List.countP_congr hpt, hhost]
    have hfall : (str "host:" ++ r.host).take 5 = str "host:" :=
      List.take_left' (by decide)
    simp [List.countP_cons, hfall]

/-- Witness for C10 on a request with one explicit `Host` header entry. -/
theorem host_duplicated_with_sentinel_witness :
    (signedHeadersList
        ⟨str "GET", str "/", [], [(str "Host", [str "h"])], str "auth.example", []⟩
        []).countP (fun x => decide (x = str "host")) = 2 ∧
    (canonicalHeadersLines
        ⟨str "GET", str "/", [], [(str "Host", [str "h"])], str "auth.example", []⟩
        []).countP (fun l => decide (l.take 5 = str "host:")) = 2 :=
  host_duplicated_with_sentinel
    ⟨str "GET", str "/", [], [(str "Host", [str "h"])], str "auth.example", []⟩
    (by decide) (by decide)

/-! ### Lemmas for the idempotence claim -/

theorem resolveTime_set_auth (r : Request) (v : Str) :
    resolveTime (setAuth r v) = resolveTime r := by
  simp only [resolveTime, setAuth]
  rw [headerGet_set_ne (by decide) r.header v, headerGet_set_ne (by decide) r.header v]

theorem guard_none_of_unselected {β : Type} {sel : SHMap}
    (hne : shLen sel ≠ 0) (hauth : shGet sel (str "authorization") = false)
    (g : Str × List Str → β) (e : Str × List Str) (he : e.1 = str "Authorization") :
    (if shLen sel = 0 ∨ shGet sel (toLower e.1) then some (g e) else none) = none := by
  rw [if_neg]
  intro hor
  rcases hor with h | h
  · exact hne h
  · rw [he, show toLower (str "Authorization") = str "authorization" from by decide,
      hauth] at h
    cases h

theorem filterMap_set_auth {β : Type} {sel : SHMap}
    (hne : shLen sel ≠ 0) (hauth : shGet sel (str "authorization") = false)
    (g : Str × List Str → β) (h : Header) (v : Str) :
    (headerSet h (str "Authorization") v).filterMap
      (fun kv => if shLen sel = 0 ∨ shGet sel (toLower kv.1) then some (g kv) else none) =
    h.filterMap
      (fun kv => if shLen sel = 0 ∨ shGet sel (toLower kv.1) then some (g kv) else none) := by
  unfold headerSet
  rw [show canonKey (str "Authorization") = str "Authorization" from by decide,
    List.filterMap_append]
  rw [show ([(str "Authorization", [v])] : Header).filterMap
      (fun kv => if shLen sel = 0 ∨ shGet sel (toLower kv.1) then some (g kv) else none) =
      [] from by
    simp only [List.filterMap_cons, List.filterMap_nil]
    rw [guard_none_of_unselected hne hauth g (str "Authorization", [v]) rfl]]
  rw [List.append_nil]
  apply filterMap_filter_of_none
  intro x hx hpx
  have hx1 : x.1 = str "Authorization" := by
    by_cases hc : x.1 = str "Authorization"
    · exact hc
    · simp [hc] at hpx
  exact guard_none_of_unselected hne hauth g x hx1

theorem signedHeadersList_set_auth (r : Request) (sel : SHMap) (v : Str)
    (hne : shLen sel ≠ 0) (hauth : shGet sel (str "authorization") = false) :
    signedHeadersList (setAuth r v) sel = signedHeadersList r sel := by
  simp only [signedHeadersList, setAuth]
  rw [filterMap_set_auth hne hauth (fun kv => toLower kv.1) r.header v,
    headerGet_set_ne (by decide) r.header v]

theorem canonicalHeadersLines_set_auth (r : Request) (sel : SHMap) (v : Str)
    (hne : shLen sel ≠ 0) (hauth : shGet sel (str "authorization") = false) :
    canonicalHeadersLines (setAuth r v) sel = canonicalHeadersLines r sel := by
  simp only [canonicalHeadersLines, setAuth]
  rw [filterMap_set_auth hne hauth
      (fun kv => toLower kv.1 ++ ':' :: intercalateChar ','
        ((sortStrings kv.2).map trimString)) r.header v,
    headerGet_set_ne (by decide) r.header v]

theorem signRequest_of_resolveTime {s : Signature} {rr : Request} {sel : SHMap}
    {nw tt : Time} (hres : resolveTime rr = some tt) :
    Signature.SignRequest s rr sel nw = setAuth rr (signAuthValue s rr sel tt) := by
  unfold Signature.SignRequest signAuthValue setAuth
  rw [hres]

/-- C3 counterexample: with the empty-set sentinel selection, `SignRequest`
is not idempotent — the second run signs the Authorization header that the
first run set (its signed-header list gains `authorization`), so the second
Authorization value differs from the first. -/
theorem signRequest_not_idempotent_sentinel :
    headerGet ((Signature.SignRequest ⟨str "A", str "k", str "r", str "s"⟩
        (Signature.SignRequest ⟨str "A", str "k", str "r", str "s"⟩
          ⟨str "GET", str "/", [], [(str "X-Amz-Date", [str "20110909T233600Z"])],
            str "h", []⟩ [] ⟨0, 1, 1, 0, 0, 0⟩)
        [] ⟨0, 1, 1, 0, 0, 0⟩).header) (str "Authorization") ≠
    headerGet ((Signature.SignRequest ⟨str "A", str "k", str "r", str "s"⟩
        ⟨str "GET", str "/", [], [(str "X-Amz-Date", [str "20110909T233600Z"])],
          str "h", []⟩ [] ⟨0, 1, 1, 0, 0, 0⟩).header) (str "Authorization") := by
  decide

/-- C3 (amended): for a request carrying a valid date header (fixing the
timestamp) and an explicit non-empty signed-header selection that does not
select `authorization`, `SignRequest` is idempotent: running it again on the
request left by the first run sets the identical Authorization value.  With
the empty-set sentinel (or a selection containing `authorization`) the
second run signs the Authorization header set by the first and produces a
different value (see the counterexample). -/
theorem signRequest_idempotent (s : Signature) (r : Request) (sel : SHMap)
    (t now now' : Time)
    (hres : resolveTime r = some t)
    (hne : shLen sel ≠ 0)
    (hauth : shGet sel (str "authorization") = false) :
    headerGet ((Signature.SignRequest s (Signature.SignRequest s r sel now) sel now').header)
        (str "Authorization") =
      headerGet ((Signature.SignRequest s r sel now).header) (str "Authorization") := by
  rw [signRequest_of_resolveTime hres]
  have hres1 : resolveTime (setAuth r (signAuthValue s r sel t)) = some t := by
    rw [resolveTime_set_auth]
    exact hres
  rw [signRequest_of_resolveTime hres1]
  have hsl := signedHeadersList_set_auth r sel (signAuthValue s r sel t) hne hauth
  have hcl := canonicalHeadersLines_set_auth r sel (signAuthValue s r sel t) hne hauth
  have hget2 : (setAuth (setAuth r (signAuthValue s r sel t))
      (signAuthValue s (setAuth r (signAuthValue s r sel t)) sel t)).header =
      headerSet (setAuth r (signAuthValue s r sel t)).header (str "Authorization")
        (signAuthValue s (setAuth r (signAuthValue s r sel t)) sel t) := rfl
  have hget1 : (setAuth r (signAuthValue s r sel t)).header =
      headerSet r.header (str "Authorization") (signAuthValue s r sel t) := rfl
  rw [hget2, headerGet_set_self, hget1, headerGet_set_self]
  set v1 := signAuthValue s r sel t with hv1
  have hcu : CanonicalURI (setAuth r v1) = CanonicalURI r := rfl
  have hcq : CanonicalQueryString (setAuth r v1) = CanonicalQueryString r := rfl
  have hme : (setAuth r v1).method = r.method := rfl
  have hpl : RequestPayload (setAuth r v1) = RequestPayload r := rfl
  have hcr : CanonicalRequest (setAuth r v1) sel = CanonicalRequest r sel := by
    simp only [CanonicalRequest, CanonicalHeaders, SignedHeaders]
    rw [hcl, hsl, hcu, hcq, hme, hpl]
  have hshs : SignedHeaders (setAuth r v1) sel = SignedHeaders r sel := by
    simp only [SignedHeaders]
    rw [hsl]
  calc signAuthValue s (setAuth r v1) sel t
      = signAuthValue s r sel t := by
        simp only [signAuthValue]
        rw [hcr, hshs]
    _ = v1 := hv1.symm

/-- Witness for C3 at a concrete request with a valid `x-amz-date` header
and the explicit selection `{host, x-amz-date}`. -/
theorem signRequest_idempotent_witness :
    headerGet ((Signature.SignRequest ⟨str "A", str "k", str "r", str "s"⟩
        (Signature.SignRequest ⟨str "A", str "k", str "r", str "s"⟩
          ⟨str "GET", str "/", [], [(str "X-Amz-Date", [str "20110909T233600Z"])],
            str "h", []⟩ [(str "host", true), (str "x-amz-date", true)] ⟨0, 1, 1, 0, 0, 0⟩)
        [(str "host", true), (str "x-amz-date", true)] ⟨0, 1, 1, 0, 0, 0⟩).header)
      (str "Authorization") =
    headerGet ((Signature.SignRequest ⟨str "A", str "k", str "r", str "s"⟩
        ⟨str "GET", str "/", [], [(str "X-Amz-Date", [str "20110909T233600Z"])],
          str "h", []⟩ [(str "host", true), (str "x-amz-date", true)] ⟨0, 1, 1, 0, 0, 0⟩).header)
      (str "Authorization") :=
  signRequest_idempotent ⟨str "A", str "k", str "r", str "s"⟩
    ⟨str "GET", str "/", [], [(str "X-Amz-Date", [str "20110909T233600Z"])], str "h", []⟩
    [(str "host", true), (str "x-amz-date", true)]
    ⟨2011, 9, 9, 23, 36, 0⟩ ⟨0, 1, 1, 0, 0, 0⟩ ⟨0, 1, 1, 0, 0, 0⟩
    (by decide) (by decide) (by decide)

end Sign4
